import Mathlib

/-!
Verification of the Intentgram local data store and its helpers.

The development shallowly embeds the non-UI core of the repository
(`src/utils.ts`, with `src/app.js` providing the untyped originals of the
same functions): the localStorage-backed category/profile store, the
Instagram URL normalizer, and the deep-link builder.

Modelling conventions:
- JSON values produced by `JSON.parse` are the inductive type `Json`;
  objects are ordered field lists (first binding wins on lookup, as parsed
  JS objects have unique keys).
- The persisted localStorage slot under the key `profiles.v2` is
  `SlotState`: the slot is absent (`getItem` returns null), present but not
  parseable as JSON (this also covers the empty string, which the code
  rejects via its falsiness check before parsing), or present and parsed to
  a `Json` value.  `JSON.stringify` followed by `JSON.parse` is the
  identity on these values, so a successful write is modelled as storing
  the serialized value directly.
- JavaScript string primitives used by the code (`trim`, `toLowerCase`,
  `split`, `startsWith`-style regexes, `encodeURIComponent`) are
  implemented over character lists so that every definition evaluates
  inside the kernel.
- The WHATWG `new URL(raw)` constructor is an external platform API; its
  outcome is passed to the normalizer as an explicit `Option URLParts`
  argument (`none` models the constructor throwing).  The `hostname` field
  is as produced by the parser (already lowercased) and `pathname` excludes
  query string and fragment.
- `crypto.randomUUID` is an external capability; the identifier it returns
  is passed in as an explicit argument.
-/

namespace Intentgram

/-- JSON values as returned by `JSON.parse`.  Numbers are modelled as
integers, which is enough for every value the claims touch. -/
inductive Json where
  | null
  | bool (b : Bool)
  | num (n : Int)
  | str (s : String)
  | arr (elems : List Json)
  | obj (fields : List (String × Json))

/-- State of the persistent storage slot under the storage key. -/
inductive SlotState where
  | absent
  | unparsable
  | parsed (value : Json)

/-- Lookup of an object field, first binding wins (models JS property
access on objects with unique keys). -/
def lookupField (k : String) : List (String × Json) → Option Json
  | [] => none
  | (k2, v) :: rest => if k2 = k then some v else lookupField k rest

/-- Property assignment on a field list: replaces the first binding of the
key, appends the binding when the key is absent (JS assignment
semantics). -/
def setFieldList (k : String) (v : Json) : List (String × Json) → List (String × Json)
  | [] => [(k, v)]
  | (k2, v2) :: rest => if k2 = k then (k, v) :: rest else (k2, v2) :: setFieldList k v rest

/-- Property read `j[k]`; undefined (on non-objects or missing keys) is
`none`. -/
def Json.getField (j : Json) (k : String) : Option Json :=
  match j with
  | .obj fields => lookupField k fields
  | _ => none

/-- Property write `j[k] = v` on an object; identity on other values. -/
def Json.setField (j : Json) (k : String) (v : Json) : Json :=
  match j with
  | .obj fields => .obj (setFieldList k v fields)
  | _ => j

/-- Tests `typeof j[k] === "string"`. -/
def isStringField (j : Json) (k : String) : Bool :=
  match j.getField k with
  | some (.str _) => true
  | _ => false

/-- Tests `Array.isArray(j[k])`. -/
def isArrayField (j : Json) (k : String) : Bool :=
  match j.getField k with
  | some (.arr _) => true
  | _ => false

/-- Type guard of `readCategories` in `src/utils.ts` (lines 57-66): the
item is a non-null object with string `id`, string `name` and array
`profiles`.  The `typeof item === "object" && item !== null` conjuncts are
the `.obj` pattern; JS arrays would also pass the typeof test but lack the
`id` property, so restricting to `.obj` is faithful. -/
def isCategoryShaped (j : Json) : Bool :=
  match j with
  | .obj _ => isStringField j "id" && isStringField j "name" && isArrayField j "profiles"
  | _ => false

/-- Embedding of `readCategories` (`src/utils.ts` lines 43-71): absent or
unparsable content yields `[]` (the falsy-raw check and the catch branch),
a parsed non-array yields `[]`, and a parsed array is filtered through the
category type guard. -/
def readCategories : SlotState → List Json
  | .absent => []
  | .unparsable => []
  | .parsed (.arr items) => items.filter isCategoryShaped
  | .parsed _ => []

/-- Successful write path of `writeCategories` (`src/utils.ts` lines
78-89): `setItem(STORAGE_KEY, JSON.stringify(categories))` replaces the
whole slot with the serialized array. -/
def writeCategories (categories : List Json) : SlotState :=
  .parsed (.arr categories)

/-- Error taxonomy of the store: the `TypeError` thrown for a non-array
argument (the ValidationError of the spec) and the `Error` rethrown when
`setItem` throws (the PersistenceError of the spec). -/
inductive StoreError where
  | validationError
  | persistenceError
deriving DecidableEq

/-- Full embedding of `writeCategories` including its failure modes: the
argument as an arbitrary runtime value, and a flag telling whether the
underlying `localStorage.setItem` call throws (quota exceeded).  The
array check precedes the write attempt, mirroring the source order. -/
def writeCategoriesChecked (value : Json) (storageThrows : Bool) :
    Except StoreError SlotState :=
  match value with
  | .arr categories =>
    if storageThrows then .error .persistenceError else .ok (writeCategories categories)
  | _ => .error .validationError

/-- JavaScript `String.prototype.trim` over the character list (ASCII
whitespace, which covers every input the claims use). -/
def jsTrim (s : String) : String :=
  String.mk (((s.toList.dropWhile Char.isWhitespace).reverse.dropWhile
    Char.isWhitespace).reverse)

/-- JavaScript `String.prototype.toLowerCase` over the character list. -/
def jsToLower (s : String) : String :=
  String.mk (s.toList.map Char.toLower)

/-- Tests whether `s` starts with `pre` (the `/^www\./` regex test). -/
def strStartsWith (s pre : String) : Bool :=
  pre.toList.isPrefixOf s.toList

/-- Tests whether `s` ends with `suffix` (an end-anchored regex test). -/
def strEndsWith (s sfx : String) : Bool :=
  sfx.toList.isSuffixOf s.toList

/-- Drops the first `n` characters of `s`. -/
def strDropChars (s : String) (n : Nat) : String :=
  String.mk (s.toList.drop n)

/-- JavaScript `String.prototype.split` with a one-character separator:
`"/a/".split("/")` is `["", "a", ""]`. -/
def splitOnChar (sep : Char) : List Char → List (List Char)
  | [] => [[]]
  | c :: rest =>
    let r := splitOnChar sep rest
    if c = sep then [] :: r
    else
      match r with
      | seg :: segs => (c :: seg) :: segs
      | [] => [[c]]

/-- The expression `u.pathname.split("/").filter(Boolean)` of the
normalizer: path segments with empty strings removed. -/
def pathSegments (pathname : String) : List String :=
  ((splitOnChar '/' pathname.toList).map String.mk).filter (fun seg => seg ≠ "")

/-- Outcome of the WHATWG URL constructor for the fields the code reads:
`hostname` (lowercased by the parser) and `pathname` (query string and
fragment excluded). -/
structure URLParts where
  hostname : String
  pathname : String
deriving DecidableEq

/-- Result record of the normalizer: `{ username, url }`. -/
structure NormalizedInstagramUrl where
  username : String
  url : String
deriving DecidableEq

/-- The expression `u.hostname.replace(/^www\./, "")`: strips one leading
`www.` prefix. -/
def stripWww (host : String) : String :=
  if strStartsWith host "www." then strDropChars host 4 else host

/-- The test `/instagram\.com$/i.test(hostname)`: a case-insensitive
suffix match, with the dot escaped to a literal dot.  Note this is a
suffix test, not an equality test. -/
def hostIsInstagram (hostname : String) : Bool :=
  strEndsWith (jsToLower hostname) "instagram.com"

/-- Embedding of `normalizeInstagramUrl` (`src/utils.ts` lines 110-141).
The first argument is the raw input string (checked for emptiness after
trimming before any parsing); `parseResult` is the outcome of
`new URL(url)`, with `none` for the constructor throwing (the catch
branch returns null). -/
def normalizeInstagramUrl (url : String) (parseResult : Option URLParts) :
    Option NormalizedInstagramUrl :=
  if jsTrim url = "" then none
  else
    match parseResult with
    | none => none
    | some u =>
      if hostIsInstagram (stripWww u.hostname) = false then none
      else
        match pathSegments u.pathname with
        | [] => none
        | username :: _ =>
          if username = "" then none
          else some { username := username, url := "https://instagram.com/" ++ username }

/-- Unreserved characters of `encodeURIComponent`: alphanumerics and
`- _ . ! ~ * ( )` together with the apostrophe (code point 39). -/
def isUriUnreserved (c : Char) : Bool :=
  c.isAlpha || c.isDigit || c = '-' || c = '_' || c = '.' || c = '!' || c = '~' ||
    c = '*' || c.toNat = 39 || c = '(' || c = ')'

/-- UTF-8 bytes of one character. -/
def utf8ByteList (c : Char) : List Nat :=
  let n := c.toNat
  if n < 128 then [n]
  else if n < 2048 then [192 + n / 64, 128 + n % 64]
  else if n < 65536 then [224 + n / 4096, 128 + (n / 64) % 64, 128 + n % 64]
  else [240 + n / 262144, 128 + (n / 4096) % 64, 128 + (n / 64) % 64, 128 + n % 64]

/-- Uppercase hexadecimal digit for a value below 16. -/
def hexDigitChar (n : Nat) : Char :=
  if n < 10 then Char.ofNat (48 + n) else Char.ofNat (55 + n)

/-- JavaScript `encodeURIComponent`: unreserved characters pass through,
every other character is percent-encoded byte by byte over its UTF-8
encoding with uppercase hexadecimal digits. -/
def encodeURIComponent (s : String) : String :=
  String.mk (s.toList.flatMap (fun c =>
    if isUriUnreserved c then [c]
    else (utf8ByteList c).flatMap (fun b => ['%', hexDigitChar (b / 16), hexDigitChar (b % 16)])))

/-- Result record of the deep-link builder: `{ appUrl, webUrl }`. -/
structure InstagramDeepLink where
  appUrl : String
  webUrl : String
deriving DecidableEq

/-- The `TypeError` thrown by `instaDeepLink` for an empty or
whitespace-only username (the ValidationError of the spec). -/
inductive DeepLinkError where
  | validationError
deriving DecidableEq

/-- Embedding of `instaDeepLink` (`src/utils.ts` lines 148-158). -/
def instaDeepLink (username : String) : Except DeepLinkError InstagramDeepLink :=
  if jsTrim username = "" then .error .validationError
  else
    .ok { appUrl := "instagram://user?username=" ++ encodeURIComponent username,
          webUrl := "https://instagram.com/" ++ encodeURIComponent username }

/-- The predicate `c.id === categoryId` (also `p.id === profileId`):
strict equality of the `id` property against a string, which holds exactly
when the property is a string of equal content. -/
def idMatches (targetId : String) (j : Json) : Bool :=
  match j.getField "id" with
  | some (.str s) => s == targetId
  | _ => false

/-- JavaScript `Array.prototype.findIndex`, with `none` in place of -1. -/
def findIndexOpt (p : α → Bool) : List α → Option Nat
  | [] => none
  | x :: xs => if p x then some 0 else (findIndexOpt p xs).map (· + 1)

/-- Embedding of `findCategoryById` (`src/utils.ts` lines 357-364): null
for an empty or whitespace-only id, otherwise the first match of
`categories.find(c => c.id === categoryId)`. -/
def findCategoryById (state : SlotState) (categoryId : String) : Option Json :=
  if jsTrim categoryId = "" then none
  else (readCategories state).find? (idMatches categoryId)

/-- Embedding of `getCurrentCategory` (`src/utils.ts` lines 95-103).  The
`category` query parameter of the page URL is the explicit argument
`categoryParam`; a missing or empty parameter is falsy and yields null. -/
def getCurrentCategory (state : SlotState) (categoryParam : Option String) : Option Json :=
  match categoryParam with
  | none => none
  | some categoryId =>
    if categoryId = "" then none
    else (readCategories state).find? (idMatches categoryId)

/-- The statement `categories[categoryIndex].profiles.push(profile)`: the
category found by the type guard always carries an array-valued
`profiles` property, to which the profile is appended; on any other value
`push` could not be reached, so the value is kept unchanged. -/
def pushProfile (category : Json) (profile : Json) : Json :=
  match category.getField "profiles" with
  | some (.arr profiles) => category.setField "profiles" (.arr (profiles ++ [profile]))
  | _ => category

/-- Embedding of `addProfileToCategory` (`src/utils.ts` lines 372-383):
read the document, find the first category whose id matches, return false
without writing when there is none, otherwise push the profile onto that
category and write the whole document back.  The inner `none` branch is
unreachable because `findIndexOpt` returns an in-bounds index. -/
def addProfileToCategory (state : SlotState) (categoryId : String) (profile : Json) :
    Bool × SlotState :=
  let categories := readCategories state
  match findIndexOpt (idMatches categoryId) categories with
  | none => (false, state)
  | some i =>
    match categories[i]? with
    | some c => (true, writeCategories (categories.set i (pushProfile c profile)))
    | none => (false, state)

/-- Embedding of `removeProfileFromCategory` (`src/utils.ts` lines
391-410): find the first matching category, then the first matching
profile inside it; either search failing returns false without a write;
otherwise `splice(profileIndex, 1)` removes that entry and the whole
document is written back.  The branches for an out-of-bounds index or a
non-array `profiles` property are unreachable for type-guarded input. -/
def removeProfileFromCategory (state : SlotState) (categoryId profileId : String) :
    Bool × SlotState :=
  let categories := readCategories state
  match findIndexOpt (idMatches categoryId) categories with
  | none => (false, state)
  | some i =>
    match categories[i]? with
    | none => (false, state)
    | some c =>
      match c.getField "profiles" with
      | some (.arr profiles) =>
        match findIndexOpt (idMatches profileId) profiles with
        | none => (false, state)
        | some pi =>
          (true, writeCategories (categories.set i
            (c.setField "profiles" (.arr (profiles.eraseIdx pi)))))
      | _ => (false, state)

/-- Heap of array values, for the one operation whose contract speaks
about array aliasing: arrays are identified by their index in the heap,
as JS arrays are compared by reference. -/
structure Heap where
  arrays : List (List Json)

/-- Result record of `createCategory`: `{ id, name, profiles }` with the
profiles array given by reference into the heap. -/
structure CategoryRec where
  id : String
  name : String
  profilesRef : Nat
deriving DecidableEq

/-- Embedding of `createCategory` (`src/utils.ts` lines 333-350): throws
for an empty or whitespace-only name (the second guard, a non-array
profiles argument, is excluded by the typing of `profilesRef`); otherwise
allocates a fresh array `[...profiles]` holding a copy of the referenced
content and returns the record with the trimmed name and the identifier
produced by `crypto.randomUUID`, passed in as `freshId`.  No slot state is
involved: the function does not touch the store. -/
def createCategory (h : Heap) (freshId name : String) (profilesRef : Nat) :
    Except StoreError (CategoryRec × Heap) :=
  if jsTrim name = "" then .error .validationError
  else
    .ok ({ id := freshId, name := jsTrim name, profilesRef := h.arrays.length },
         { arrays := h.arrays ++ [h.arrays.getD profilesRef []] })

/-- Formalization of the phrase of claim C3 "content matching an array of
category-shaped records": the parsed value is an array all of whose
entries are category-shaped. -/
def isCategoryShapedDocument (j : Json) : Bool :=
  match j with
  | .arr items => items.all isCategoryShaped
  | _ => false

/-- Sample category with id `a` and no profiles. -/
def catA : Json :=
  .obj [("id", .str "a"), ("name", .str "Alpha"), ("profiles", .arr [])]

/-- Sample profile with id `p1`. -/
def profP1 : Json :=
  .obj [("id", .str "p1"), ("name", .str "P One"), ("username", .str "pone")]

/-- Sample profile with id `p2`. -/
def profP2 : Json :=
  .obj [("id", .str "p2"), ("name", .str "P Two"), ("username", .str "ptwo")]

/-- Sample profile with id `p3`. -/
def profP3 : Json :=
  .obj [("id", .str "p3"), ("name", .str "P Three"), ("username", .str "pthree")]

/-- Sample category with id `b` and two profiles. -/
def catB : Json :=
  .obj [("id", .str "b"), ("name", .str "Beta"), ("profiles", .arr [profP1, profP2])]

/-- Sample persisted state holding the two sample categories. -/
def sampleState : SlotState :=
  writeCategories [catA, catB]

/-- Sample category sharing the id `dup` with `catDup2`. -/
def catDup1 : Json :=
  .obj [("id", .str "dup"), ("name", .str "First"), ("profiles", .arr [])]

/-- Second sample category with the duplicated id `dup`. -/
def catDup2 : Json :=
  .obj [("id", .str "dup"), ("name", .str "Second"), ("profiles", .arr [profP1])]

/-- Sample persisted state whose document contains two categories with the
same id. -/
def dupState : SlotState :=
  writeCategories [catDup1, catDup2]

/-! Helper lemmas about `findIndexOpt`, `List.find?`, the shape guard and
field updates. -/

/-- A failed `findIndex` means no element satisfies the predicate. -/
theorem findIndexOpt_eq_none_iff (p : α → Bool) (l : List α) :
    findIndexOpt p l = none ↔ ∀ x ∈ l, p x = false := by
  induction l with
  | nil => simp [findIndexOpt]
  | cons x xs ih =>
    cases h : p x with
    | true =>
      constructor
      · intro hcontra
        exfalso
        simp [findIndexOpt, h] at hcontra
      · intro hall
        exfalso
        have hx := hall x (List.mem_cons_self x xs)
        rw [h] at hx
        exact Bool.noConfusion hx
    | false =>
      constructor
      · intro hnone y hy
        rcases List.mem_cons.mp hy with h1 | hy2
        · rw [h1]; exact h
        · refine (ih.mp ?_) y hy2
          cases hr : findIndexOpt p xs with
          | none => rfl
          | some i =>
            exfalso
            have hsucc : findIndexOpt p (x :: xs) = some (i + 1) := by
              simp [findIndexOpt, h, hr]
            rw [hsucc] at hnone
            exact Option.noConfusion hnone
      · intro hall
        have hxs : findIndexOpt p xs = none :=
          ih.mpr fun y hy => hall y (List.mem_cons_of_mem _ hy)
        simp [findIndexOpt, h, hxs]

/-- A successful `findIndex` returns an in-bounds index of a matching
element before which no element matches. -/
theorem findIndexOpt_eq_some_spec (p : α → Bool) (l : List α) (i : Nat)
    (h : findIndexOpt p l = some i) :
    ∃ x, l[i]? = some x ∧ p x = true ∧
      ∀ j, j < i → ∀ y, l[j]? = some y → p y = false := by
  induction l generalizing i with
  | nil => simp [findIndexOpt] at h
  | cons x xs ih =>
    cases hx : p x with
    | true =>
      simp only [findIndexOpt, hx, if_true] at h
      cases h
      exact ⟨x, by simp, hx, fun j hj => absurd hj (Nat.not_lt_zero j)⟩
    | false =>
      simp only [findIndexOpt, hx, Bool.false_eq_true, if_false] at h
      obtain ⟨i0, hr, hi⟩ := Option.map_eq_some'.mp h
      subst hi
      obtain ⟨y, hy, hpy, hfirst⟩ := ih i0 hr
      refine ⟨y, by simpa using hy, hpy, ?_⟩
      intro j hj z hz
      cases j with
      | zero =>
        simp only [List.getElem?_cons_zero, Option.some.injEq] at hz
        subst hz
        exact hx
      | succ j0 =>
        simp only [List.getElem?_cons_succ] at hz
        exact hfirst j0 (Nat.lt_of_succ_lt_succ hj) z hz

/-- The first matching index is what `findIndex` returns. -/
theorem findIndexOpt_first (p : α → Bool) (l : List α) (i : Nat) (x : α)
    (hx : l[i]? = some x) (hpx : p x = true)
    (hfirst : ∀ j, j < i → ∀ y, l[j]? = some y → p y = false) :
    findIndexOpt p l = some i := by
  induction l generalizing i with
  | nil => simp at hx
  | cons a as ih =>
    cases i with
    | zero =>
      simp only [List.getElem?_cons_zero, Option.some.injEq] at hx
      subst hx
      simp [findIndexOpt, hpx]
    | succ i0 =>
      have ha : p a = false := hfirst 0 (Nat.succ_pos i0) a (by simp)
      simp only [List.getElem?_cons_succ] at hx
      have : findIndexOpt p as = some i0 := by
        refine ih i0 hx ?_
        intro j hj y hy
        exact hfirst (j + 1) (Nat.succ_lt_succ hj) y (by simpa using hy)
      simp [findIndexOpt, ha, this]

/-- The element at the first matching index is what `find?` returns. -/
theorem find?_of_first (p : α → Bool) (l : List α) (i : Nat) (x : α)
    (hx : l[i]? = some x) (hpx : p x = true)
    (hfirst : ∀ j, j < i → ∀ y, l[j]? = some y → p y = false) :
    l.find? p = some x := by
  induction l generalizing i with
  | nil => simp at hx
  | cons a as ih =>
    cases i with
    | zero =>
      simp only [List.getElem?_cons_zero, Option.some.injEq] at hx
      subst hx
      exact List.find?_cons_of_pos _ hpx
    | succ i0 =>
      have ha : p a = false := hfirst 0 (Nat.succ_pos i0) a (by simp)
      simp only [List.getElem?_cons_succ] at hx
      have hfind : as.find? p = some x := by
        refine ih i0 hx ?_
        intro j hj y hy
        exact hfirst (j + 1) (Nat.succ_lt_succ hj) y (by simpa using hy)
      rw [List.find?_cons_of_neg _ (by simp [ha]), hfind]

/-- Every category produced by a read passed the type guard. -/
theorem mem_readCategories_shaped (s : SlotState) (c : Json)
    (hc : c ∈ readCategories s) : isCategoryShaped c = true := by
  cases s with
  | absent => simp [readCategories] at hc
  | unparsable => simp [readCategories] at hc
  | parsed j =>
    cases j with
    | arr items => exact (List.mem_filter.mp hc).2
    | null => simp [readCategories] at hc
    | bool b => simp [readCategories] at hc
    | num n => simp [readCategories] at hc
    | str s2 => simp [readCategories] at hc
    | obj fields => simp [readCategories] at hc

/-- Reading back a written document filters it through the type guard. -/
theorem readCategories_writeCategories (categories : List Json) :
    readCategories (writeCategories categories) = categories.filter isCategoryShaped := rfl

/-- Updating a field makes the updated binding the one found. -/
theorem lookupField_setFieldList_self (k : String) (v : Json)
    (fields : List (String × Json)) :
    lookupField k (setFieldList k v fields) = some v := by
  induction fields with
  | nil => simp [setFieldList, lookupField]
  | cons kv rest ih =>
    obtain ⟨k2, v2⟩ := kv
    by_cases h : k2 = k
    · simp [setFieldList, h, lookupField]
    · simp [setFieldList, h, lookupField, ih]

/-- Updating a field leaves every other field unchanged. -/
theorem lookupField_setFieldList_ne (k k2 : String) (v : Json)
    (fields : List (String × Json)) (h : k2 ≠ k) :
    lookupField k2 (setFieldList k v fields) = lookupField k2 fields := by
  have hne : ¬(k = k2) := fun hk => h hk.symm
  induction fields with
  | nil => simp [setFieldList, lookupField, hne]
  | cons kv rest ih =>
    obtain ⟨k3, v3⟩ := kv
    by_cases h3 : k3 = k
    · subst h3
      simp [setFieldList, lookupField, hne]
    · by_cases h2 : k3 = k2
      · simp [setFieldList, h3, lookupField, h2, hne, h]
      · simp [setFieldList, h3, lookupField, h2, ih]

/-- Field read after a field write on an object, same key. -/
theorem getField_setField_self (fields : List (String × Json)) (k : String) (v : Json) :
    (Json.setField (.obj fields) k v).getField k = some v := by
  simp [Json.setField, Json.getField, lookupField_setFieldList_self]

/-- Field read after a field write on an object, different key. -/
theorem getField_setField_ne (fields : List (String × Json)) (k k2 : String) (v : Json)
    (h : k2 ≠ k) :
    (Json.setField (.obj fields) k v).getField k2 = (Json.obj fields).getField k2 := by
  simp [Json.setField, Json.getField, lookupField_setFieldList_ne k k2 v fields h]

/-- A category-shaped value is an object. -/
theorem shaped_is_obj (c : Json) (h : isCategoryShaped c = true) :
    ∃ fields, c = .obj fields := by
  cases c with
  | obj fields => exact ⟨fields, rfl⟩
  | null => simp [isCategoryShaped] at h
  | bool b => simp [isCategoryShaped] at h
  | num n => simp [isCategoryShaped] at h
  | str s => simp [isCategoryShaped] at h
  | arr elems => simp [isCategoryShaped] at h

/-- A category-shaped value carries an array-valued `profiles` field. -/
theorem shaped_profiles_arr (c : Json) (h : isCategoryShaped c = true) :
    ∃ profiles, c.getField "profiles" = some (.arr profiles) := by
  obtain ⟨fields, rfl⟩ := shaped_is_obj c h
  simp only [isCategoryShaped, Bool.and_eq_true] at h
  obtain ⟨-, harr⟩ := h
  unfold isArrayField at harr
  cases hg : (Json.obj fields).getField "profiles" with
  | none => rw [hg] at harr; simp at harr
  | some j =>
    cases j with
    | arr profiles => exact ⟨profiles, rfl⟩
    | null => rw [hg] at harr; simp at harr
    | bool b => rw [hg] at harr; simp at harr
    | num n => rw [hg] at harr; simp at harr
    | str s => rw [hg] at harr; simp at harr
    | obj f2 => rw [hg] at harr; simp at harr

/-- Overwriting `profiles` with another array preserves the type guard and
the `id` and `name` fields. -/
theorem setField_profiles_shaped (c : Json) (h : isCategoryShaped c = true)
    (profiles : List Json) :
    isCategoryShaped (c.setField "profiles" (.arr profiles)) = true ∧
      (c.setField "profiles" (.arr profiles)).getField "id" = c.getField "id" ∧
      (c.setField "profiles" (.arr profiles)).getField "name" = c.getField "name" := by
  obtain ⟨fields, rfl⟩ := shaped_is_obj c h
  have hid : (Json.setField (.obj fields) "profiles" (.arr profiles)).getField "id"
      = (Json.obj fields).getField "id" :=
    getField_setField_ne fields "profiles" "id" (.arr profiles) (by decide)
  have hname : (Json.setField (.obj fields) "profiles" (.arr profiles)).getField "name"
      = (Json.obj fields).getField "name" :=
    getField_setField_ne fields "profiles" "name" (.arr profiles) (by decide)
  refine ⟨?_, hid, hname⟩
  simp only [isCategoryShaped, Bool.and_eq_true] at h
  obtain ⟨⟨hids, hnames⟩, -⟩ := h
  simp only [Json.setField, isCategoryShaped, Bool.and_eq_true]
  constructor
  · constructor
    · unfold isStringField at hids ⊢
      rw [show (Json.obj (setFieldList "profiles" (.arr profiles) fields)).getField "id"
          = (Json.setField (.obj fields) "profiles" (.arr profiles)).getField "id" from rfl, hid]
      exact hids
    · unfold isStringField at hnames ⊢
      rw [show (Json.obj (setFieldList "profiles" (.arr profiles) fields)).getField "name"
          = (Json.setField (.obj fields) "profiles" (.arr profiles)).getField "name" from rfl, hname]
      exact hnames
  · unfold isArrayField
    rw [show (Json.obj (setFieldList "profiles" (.arr profiles) fields)).getField "profiles"
        = (Json.setField (.obj fields) "profiles" (.arr profiles)).getField "profiles" from rfl,
      getField_setField_self]

/-- The matching predicate only depends on the `id` field. -/
theorem idMatches_setField_profiles (c : Json) (h : isCategoryShaped c = true)
    (profiles : List Json) (targetId : String) :
    idMatches targetId (c.setField "profiles" (.arr profiles)) = idMatches targetId c := by
  obtain ⟨-, hid, -⟩ := setField_profiles_shaped c h profiles
  unfold idMatches
  rw [hid]

/-- Pushing onto a category-shaped value appends to its `profiles` array. -/
theorem pushProfile_eq (c : Json) (h : isCategoryShaped c = true) (profile : Json) :
    ∃ profiles, c.getField "profiles" = some (.arr profiles) ∧
      pushProfile c profile = c.setField "profiles" (.arr (profiles ++ [profile])) := by
  obtain ⟨ps, hps⟩ := shaped_profiles_arr c h
  exact ⟨ps, hps, by simp [pushProfile, hps]⟩

/-- Writing a document obtained from a read by replacing one entry with a
category-shaped value reads back unchanged. -/
theorem readCategories_write_set (s : SlotState) (i : Nat) (v : Json)
    (hv : isCategoryShaped v = true) :
    readCategories (writeCategories ((readCategories s).set i v)) =
      (readCategories s).set i v := by
  rw [readCategories_writeCategories]
  refine List.filter_eq_self.mpr ?_
  intro y hy
  rcases List.mem_or_eq_of_mem_set hy with hmem | rfl
  · exact mem_readCategories_shaped s y hmem
  · exact hv

/-!
Claim theorems.
-/

/-- C1: the claim states that `normalizeProfileUrl` returns null for every
syntactically valid URL whose host, after optionally stripping a leading
`www.` and ignoring case, is not exactly the Instagram domain, in
particular for `https://notinstagram.com/jdoe`.  The code instead tests
the regex `/instagram\.com$/i`, an end-anchored suffix match without a
dot boundary, so the host `notinstagram.com` — which is not the Instagram
domain, as the first conjunct records — is accepted and the call returns a
non-null result, contradicting the claim. -/
theorem normalizeInstagramUrl_accepts_notinstagram :
    jsToLower (stripWww "notinstagram.com") ≠ "instagram.com" ∧
    normalizeInstagramUrl "https://notinstagram.com/jdoe"
        (some { hostname := "notinstagram.com", pathname := "/jdoe" }) =
      some { username := "jdoe", url := "https://instagram.com/jdoe" } :=
  ⟨by decide, by decide⟩

/-- C3 counterexample: a persisted array mixing one category-shaped record
with a number is parsed content that does not match an array of
category-shaped records, yet `readCategories` returns the one-element
filtered sequence, not the empty sequence the claim demands. -/
theorem readCategories_mixed_array_counterexample :
    isCategoryShapedDocument (.arr [catA, .num 42]) = false ∧
    readCategories (.parsed (.arr [catA, .num 42])) = [catA] ∧
    readCategories (.parsed (.arr [catA, .num 42])) ≠ [] := by
  refine ⟨by decide, rfl, ?_⟩
  intro hcontra
  exact List.noConfusion hcontra

/-- C3 amended: `readCategories` is total (it never throws) and returns
the empty sequence for an absent slot, for unparsable content, and for
parsed content that is not an array; parsed array content yields the
sub-sequence of its category-shaped records, which is empty only when no
record is category-shaped. -/
theorem readCategories_total_spec (s : SlotState) :
    (s = .absent → readCategories s = []) ∧
    (s = .unparsable → readCategories s = []) ∧
    (∀ j, s = .parsed j → (∀ items, j ≠ .arr items) → readCategories s = []) ∧
    (∀ items, s = .parsed (.arr items) →
      readCategories s = items.filter isCategoryShaped) := by
  refine ⟨?_, ?_, ?_, ?_⟩
  · rintro rfl; rfl
  · rintro rfl; rfl
  · rintro j rfl hna
    cases j with
    | arr items => exact absurd rfl (hna items)
    | null => rfl
    | bool b => rfl
    | num n => rfl
    | str s2 => rfl
    | obj fields => rfl
  · rintro items rfl; rfl

/-- Witness for the amended C3 theorem at one concrete input per branch. -/
theorem readCategories_total_spec_witness :
    readCategories .absent = [] ∧
    readCategories .unparsable = [] ∧
    readCategories (.parsed (.obj [])) = [] ∧
    readCategories (.parsed (.arr [catA, .num 42])) =
      List.filter isCategoryShaped [catA, .num 42] :=
  ⟨(readCategories_total_spec .absent).1 rfl,
   (readCategories_total_spec .unparsable).2.1 rfl,
   (readCategories_total_spec (.parsed (.obj []))).2.2.1 (.obj []) rfl
     (fun _ h => Json.noConfusion h),
   (readCategories_total_spec (.parsed (.arr [catA, .num 42]))).2.2.2
     [catA, .num 42] rfl⟩

/-- C4: writing back exactly what was read is invisible to subsequent
reads, for every persisted slot state: the categories returned by a read
all pass the type guard, so re-filtering them after the round trip is the
identity. -/
theorem writeCategories_readCategories_roundTrip (s : SlotState) :
    readCategories (writeCategories (readCategories s)) = readCategories s := by
  rw [readCategories_writeCategories]
  exact List.filter_eq_self.mpr (fun c hc => mem_readCategories_shaped s c hc)

/-- C5: `writeCategories` fails with the ValidationError (`TypeError`)
exactly on non-array arguments, checked before the storage write; a
throwing storage write on an array argument fails with the
PersistenceError; and a successful storage write replaces the slot.
Errors are returned to the caller through the `Except`, never swallowed. -/
theorem writeCategoriesChecked_spec (value : Json) (storageThrows : Bool) :
    ((∀ items, value ≠ .arr items) →
      writeCategoriesChecked value storageThrows = .error .validationError) ∧
    (∀ items, value = .arr items → storageThrows = true →
      writeCategoriesChecked value storageThrows = .error .persistenceError) ∧
    (∀ items, value = .arr items → storageThrows = false →
      writeCategoriesChecked value storageThrows = .ok (writeCategories items)) := by
  refine ⟨?_, ?_, ?_⟩
  · intro hna
    cases value with
    | arr items => exact absurd rfl (hna items)
    | null => rfl
    | bool b => rfl
    | num n => rfl
    | str s2 => rfl
    | obj fields => rfl
  · rintro items rfl rfl; rfl
  · rintro items rfl rfl; rfl

/-- Witness for C5: one concrete input per failure mode and one success. -/
theorem writeCategoriesChecked_spec_witness :
    writeCategoriesChecked (.obj []) false = .error .validationError ∧
    writeCategoriesChecked (.arr [catA]) true = .error .persistenceError ∧
    writeCategoriesChecked (.arr [catA]) false = .ok (writeCategories [catA]) :=
  ⟨(writeCategoriesChecked_spec (.obj []) false).1 (fun _ h => Json.noConfusion h),
   (writeCategoriesChecked_spec (.arr [catA]) true).2.1 [catA] rfl rfl,
   (writeCategoriesChecked_spec (.arr [catA]) false).2.2 [catA] rfl rfl⟩

/-- C6: `createCategory` throws the ValidationError exactly for an empty
or whitespace-only name; otherwise it returns a record carrying the
trimmed name, the freshly generated identifier, and a profiles array that
is a different reference from the argument (`c.profilesRef ≠ profilesRef`)
with equal content; the argument array itself is unchanged.  The store is
untouched: the embedding involves no `SlotState`. -/
theorem createCategory_spec (h : Heap) (freshId name : String) (profilesRef : Nat) :
    (jsTrim name = "" →
      createCategory h freshId name profilesRef = .error .validationError) ∧
    (jsTrim name ≠ "" → profilesRef < h.arrays.length →
      ∃ c h2, createCategory h freshId name profilesRef = .ok (c, h2) ∧
        c.name = jsTrim name ∧
        c.id = freshId ∧
        c.profilesRef ≠ profilesRef ∧
        h2.arrays[c.profilesRef]? = h.arrays[profilesRef]? ∧
        h2.arrays[profilesRef]? = h.arrays[profilesRef]?) := by
  constructor
  · intro he
    simp [createCategory, he]
  · intro hne hlt
    have hget : h.arrays[profilesRef]? = some h.arrays[profilesRef] :=
      List.getElem?_eq_getElem hlt
    have hgetD : h.arrays.getD profilesRef [] = h.arrays[profilesRef] := by
      simp [List.getD_eq_getElem?_getD, hget]
    refine ⟨{ id := freshId, name := jsTrim name, profilesRef := h.arrays.length },
            { arrays := h.arrays ++ [h.arrays.getD profilesRef []] },
            by simp [createCategory, hne], rfl, rfl, Nat.ne_of_gt hlt, ?_, ?_⟩
    · simp [hgetD, hget]
    · rw [List.getElem?_append]
      simp [hlt]

/-- Witness for C6 on a one-array heap with a name needing trimming. -/
theorem createCategory_spec_witness :
    ∃ c h2, createCategory { arrays := [[profP1]] } "id-1" "  My List  " 0 = .ok (c, h2) ∧
      c.name = jsTrim "  My List  " ∧
      c.id = "id-1" ∧
      c.profilesRef ≠ 0 ∧
      h2.arrays[c.profilesRef]? = (Heap.mk [[profP1]]).arrays[0]? ∧
      h2.arrays[0]? = (Heap.mk [[profP1]]).arrays[0]? :=
  (createCategory_spec { arrays := [[profP1]] } "id-1" "  My List  " 0).2
    (by decide) (by decide)

/-- C7: whenever `normalizeInstagramUrl` succeeds, the returned username
is the first non-empty path segment of the parsed URL verbatim and the
returned canonical URL is exactly `https://instagram.com/` followed by
that username (query string, fragment, trailing segments and scheme or
host variations are discarded); empty or whitespace-only raw input, a
throwing URL constructor, and a URL without path segments all yield null,
and the embedding is a total function, so no input throws. -/
theorem normalizeInstagramUrl_spec (url : String) (parseResult : Option URLParts) :
    (∀ r, normalizeInstagramUrl url parseResult = some r →
      ∃ u, parseResult = some u ∧
        (pathSegments u.pathname).head? = some r.username ∧
        r.url = "https://instagram.com/" ++ r.username) ∧
    (jsTrim url = "" → normalizeInstagramUrl url parseResult = none) ∧
    (parseResult = none → normalizeInstagramUrl url parseResult = none) ∧
    (∀ u, parseResult = some u → pathSegments u.pathname = [] →
      normalizeInstagramUrl url parseResult = none) := by
  refine ⟨?_, ?_, ?_, ?_⟩
  · intro r hr
    unfold normalizeInstagramUrl at hr
    by_cases he : jsTrim url = ""
    · rw [if_pos he] at hr
      exact Option.noConfusion hr
    · rw [if_neg he] at hr
      cases parseResult with
      | none => exact Option.noConfusion hr
      | some u =>
        refine ⟨u, rfl, ?_⟩
        dsimp only at hr
        by_cases hhost : hostIsInstagram (stripWww u.hostname) = false
        · rw [if_pos hhost] at hr
          exact Option.noConfusion hr
        · rw [if_neg hhost] at hr
          cases hseg : pathSegments u.pathname with
          | nil =>
            rw [hseg] at hr
            exact Option.noConfusion hr
          | cons username rest =>
            rw [hseg] at hr
            dsimp only at hr
            by_cases hu : username = ""
            · rw [if_pos hu] at hr
              exact Option.noConfusion hr
            · rw [if_neg hu] at hr
              cases hr
              exact ⟨rfl, rfl⟩
  · intro he
    simp [normalizeInstagramUrl, he]
  · rintro rfl
    by_cases he : jsTrim url = "" <;> simp [normalizeInstagramUrl, he]
  · rintro u rfl hseg
    by_cases he : jsTrim url = ""
    · simp [normalizeInstagramUrl, he]
    · simp [normalizeInstagramUrl, he, hseg]

/-- Witness for C7 on the documented example URL with query string and
trailing slash, and on the empty input. -/
theorem normalizeInstagramUrl_spec_witness :
    (∃ u : URLParts,
      some ({ hostname := "www.instagram.com", pathname := "/jdoe/" } : URLParts) = some u ∧
      (pathSegments u.pathname).head? = some "jdoe" ∧
      "https://instagram.com/jdoe" = "https://instagram.com/" ++ "jdoe") ∧
    normalizeInstagramUrl "" none = none :=
  ⟨(normalizeInstagramUrl_spec "https://www.instagram.com/jdoe/?x=1"
      (some ({ hostname := "www.instagram.com", pathname := "/jdoe/" } : URLParts))).1
      ({ username := "jdoe", url := "https://instagram.com/jdoe" } : NormalizedInstagramUrl)
      (by decide),
   (normalizeInstagramUrl_spec "" none).2.1 (by decide)⟩

/-- C8: `instaDeepLink` throws the ValidationError exactly when the
username is empty or whitespace-only; every other username yields the
native-scheme URL `instagram://user?username=` and the web URL
`https://instagram.com/`, both followed by the `encodeURIComponent`
percent-encoding of the username. -/
theorem instaDeepLink_spec (username : String) :
    (instaDeepLink username = .error .validationError ↔ jsTrim username = "") ∧
    (jsTrim username ≠ "" →
      instaDeepLink username = .ok
        { appUrl := "instagram://user?username=" ++ encodeURIComponent username,
          webUrl := "https://instagram.com/" ++ encodeURIComponent username }) := by
  by_cases h : jsTrim username = ""
  · exact ⟨by simp [instaDeepLink, h], fun hne => absurd h hne⟩
  · exact ⟨by simp [instaDeepLink, h], fun _ => by simp [instaDeepLink, h]⟩

/-- Witness for C8: the documented username and a whitespace-only one,
together with the evaluated encoding. -/
theorem instaDeepLink_spec_witness :
    instaDeepLink "jdoe" = .ok
      { appUrl := "instagram://user?username=" ++ encodeURIComponent "jdoe",
        webUrl := "https://instagram.com/" ++ encodeURIComponent "jdoe" } ∧
    encodeURIComponent "jdoe" = "jdoe" ∧
    instaDeepLink "   " = .error .validationError :=
  ⟨(instaDeepLink_spec "jdoe").2 (by decide), by decide,
   (instaDeepLink_spec "   ").1.mpr (by decide)⟩

/-- C2: a missing category id makes `addProfileToCategory` return false
without any write, leaving the slot state (hence the persisted document)
unchanged; a present category id makes it append the profile to the end of
the `profiles` array of the first matching category, write the whole
updated document, and return true, with the subsequent read returning
exactly that updated document. -/
theorem addProfileToCategory_spec (s : SlotState) (categoryId : String) (profile : Json) :
    ((∀ c ∈ readCategories s, idMatches categoryId c = false) →
      addProfileToCategory s categoryId profile = (false, s)) ∧
    ((∃ c ∈ readCategories s, idMatches categoryId c = true) →
      ∃ i c profiles,
        (readCategories s)[i]? = some c ∧
        idMatches categoryId c = true ∧
        c.getField "profiles" = some (.arr profiles) ∧
        addProfileToCategory s categoryId profile =
          (true, writeCategories ((readCategories s).set i
            (c.setField "profiles" (.arr (profiles ++ [profile]))))) ∧
        readCategories (addProfileToCategory s categoryId profile).2 =
          (readCategories s).set i
            (c.setField "profiles" (.arr (profiles ++ [profile])))) := by
  constructor
  · intro hall
    have hnone : findIndexOpt (idMatches categoryId) (readCategories s) = none :=
      (findIndexOpt_eq_none_iff _ _).mpr hall
    simp [addProfileToCategory, hnone]
  · intro hex
    cases hfind : findIndexOpt (idMatches categoryId) (readCategories s) with
    | none =>
      exfalso
      obtain ⟨c, hc, hpc⟩ := hex
      have hfalse := (findIndexOpt_eq_none_iff _ _).mp hfind c hc
      rw [hfalse] at hpc
      exact Bool.noConfusion hpc
    | some i =>
      obtain ⟨c, hget, hpc, -⟩ := findIndexOpt_eq_some_spec _ _ _ hfind
      have hshaped : isCategoryShaped c = true :=
        mem_readCategories_shaped s c (List.getElem?_mem hget)
      obtain ⟨profiles, hps, hpush⟩ := pushProfile_eq c hshaped profile
      have hresult : addProfileToCategory s categoryId profile =
          (true, writeCategories ((readCategories s).set i (pushProfile c profile))) := by
        simp [addProfileToCategory, hfind, hget]
      refine ⟨i, c, profiles, hget, hpc, hps, ?_, ?_⟩
      · rw [hresult, hpush]
      · rw [hresult, hpush]
        exact readCategories_write_set s i _ ((setField_profiles_shaped c hshaped _).1)

/-- Witness for C2: adding under the missing id `zzz` is a no-op on the
sample state, adding under the present id `b` succeeds. -/
theorem addProfileToCategory_spec_witness :
    addProfileToCategory sampleState "zzz" profP3 = (false, sampleState) ∧
    ∃ i c profiles,
      (readCategories sampleState)[i]? = some c ∧
      idMatches "b" c = true ∧
      c.getField "profiles" = some (.arr profiles) ∧
      addProfileToCategory sampleState "b" profP3 =
        (true, writeCategories ((readCategories sampleState).set i
          (c.setField "profiles" (.arr (profiles ++ [profP3]))))) ∧
      readCategories (addProfileToCategory sampleState "b" profP3).2 =
        (readCategories sampleState).set i
          (c.setField "profiles" (.arr (profiles ++ [profP3]))) :=
  ⟨(addProfileToCategory_spec sampleState "zzz" profP3).1 (by decide),
   (addProfileToCategory_spec sampleState "b" profP3).2 (by decide)⟩

/-- C9: a successful add changes at most the first matching category (all
other positions of the document read back unchanged, and the length is
preserved); a successful remove likewise leaves every other category
unchanged and replaces the `profiles` array of the target category by the
same array with exactly the entry at the first matching profile index
removed, keeping all other profiles in the same relative order
(`take pi ++ drop (pi + 1)`). -/
theorem repository_frame_effects (s : SlotState) (categoryId profileId : String)
    (profile : Json) :
    (∀ s2, addProfileToCategory s categoryId profile = (true, s2) →
      ∃ (i : Nat) (c : Json), (readCategories s)[i]? = some c ∧
        idMatches categoryId c = true ∧
        (readCategories s2).length = (readCategories s).length ∧
        (∀ k, k ≠ i → (readCategories s2)[k]? = (readCategories s)[k]?) ∧
        (readCategories s2)[i]? = some (pushProfile c profile)) ∧
    (∀ s2, removeProfileFromCategory s categoryId profileId = (true, s2) →
      ∃ (i : Nat) (c : Json) (profiles : List Json) (pi : Nat) (y : Json),
        (readCategories s)[i]? = some c ∧
        idMatches categoryId c = true ∧
        c.getField "profiles" = some (.arr profiles) ∧
        profiles[pi]? = some y ∧
        idMatches profileId y = true ∧
        (readCategories s2).length = (readCategories s).length ∧
        (∀ k, k ≠ i → (readCategories s2)[k]? = (readCategories s)[k]?) ∧
        (readCategories s2)[i]? = some (c.setField "profiles"
          (.arr (profiles.take pi ++ profiles.drop (pi + 1))))) := by
  constructor
  · intro s2 hs2
    cases hfind : findIndexOpt (idMatches categoryId) (readCategories s) with
    | none => simp [addProfileToCategory, hfind] at hs2
    | some i =>
      obtain ⟨c, hget, hpc, -⟩ := findIndexOpt_eq_some_spec _ _ _ hfind
      have hresult : addProfileToCategory s categoryId profile =
          (true, writeCategories ((readCategories s).set i (pushProfile c profile))) := by
        simp [addProfileToCategory, hfind, hget]
      rw [hresult] at hs2
      simp only [Prod.mk.injEq, true_and] at hs2
      subst hs2
      have hshaped : isCategoryShaped c = true :=
        mem_readCategories_shaped s c (List.getElem?_mem hget)
      have hpushshaped : isCategoryShaped (pushProfile c profile) = true := by
        obtain ⟨ps, hps, hpush⟩ := pushProfile_eq c hshaped profile
        rw [hpush]
        exact (setField_profiles_shaped c hshaped _).1
      have hread := readCategories_write_set s i _ hpushshaped
      have hlt : i < (readCategories s).length := (List.getElem?_eq_some.mp hget).1
      refine ⟨i, c, hget, hpc, ?_, ?_, ?_⟩
      · rw [hread]; simp
      · intro k hk
        rw [hread]
        exact List.getElem?_set_ne (Ne.symm hk)
      · rw [hread]
        simp [List.getElem?_set_self, hlt]
  · intro s2 hs2
    cases hfind : findIndexOpt (idMatches categoryId) (readCategories s) with
    | none => simp [removeProfileFromCategory, hfind] at hs2
    | some i =>
      obtain ⟨c, hget, hpc, -⟩ := findIndexOpt_eq_some_spec _ _ _ hfind
      have hshaped : isCategoryShaped c = true :=
        mem_readCategories_shaped s c (List.getElem?_mem hget)
      obtain ⟨profiles, hps⟩ := shaped_profiles_arr c hshaped
      cases hpfind : findIndexOpt (idMatches profileId) profiles with
      | none => simp [removeProfileFromCategory, hfind, hget, hps, hpfind] at hs2
      | some pi =>
        obtain ⟨y, hyget, hpy, -⟩ := findIndexOpt_eq_some_spec _ _ _ hpfind
        have hresult : removeProfileFromCategory s categoryId profileId =
            (true, writeCategories ((readCategories s).set i
              (c.setField "profiles" (.arr (profiles.eraseIdx pi))))) := by
          simp [removeProfileFromCategory, hfind, hget, hps, hpfind]
        rw [hresult] at hs2
        simp only [Prod.mk.injEq, true_and] at hs2
        subst hs2
        have hsetshaped : isCategoryShaped
            (c.setField "profiles" (.arr (profiles.eraseIdx pi))) = true :=
          (setField_profiles_shaped c hshaped _).1
        have hread := readCategories_write_set s i _ hsetshaped
        have herase : profiles.eraseIdx pi = profiles.take pi ++ profiles.drop (pi + 1) :=
          List.eraseIdx_eq_take_drop_succ profiles pi
        have hlt : i < (readCategories s).length := (List.getElem?_eq_some.mp hget).1
        refine ⟨i, c, profiles, pi, y, hget, hpc, hps, hyget, hpy, ?_, ?_, ?_⟩
        · rw [hread]; simp
        · intro k hk
          rw [hread]
          exact List.getElem?_set_ne (Ne.symm hk)
        · rw [hread, ← herase]
          simp [List.getElem?_set_self, hlt]

/-- Witness for C9: a successful add and a successful remove on the
two-category sample state. -/
theorem repository_frame_effects_witness :
    (∃ (i : Nat) (c : Json), (readCategories sampleState)[i]? = some c ∧
      idMatches "b" c = true ∧
      (readCategories (addProfileToCategory sampleState "b" profP3).2).length =
        (readCategories sampleState).length ∧
      (∀ k, k ≠ i →
        (readCategories (addProfileToCategory sampleState "b" profP3).2)[k]? =
          (readCategories sampleState)[k]?) ∧
      (readCategories (addProfileToCategory sampleState "b" profP3).2)[i]? =
        some (pushProfile c profP3)) ∧
    (∃ (i : Nat) (c : Json) (profiles : List Json) (pi : Nat) (y : Json),
      (readCategories sampleState)[i]? = some c ∧
      idMatches "b" c = true ∧
      c.getField "profiles" = some (.arr profiles) ∧
      profiles[pi]? = some y ∧
      idMatches "p1" y = true ∧
      (readCategories (removeProfileFromCategory sampleState "b" "p1").2).length =
        (readCategories sampleState).length ∧
      (∀ k, k ≠ i →
        (readCategories (removeProfileFromCategory sampleState "b" "p1").2)[k]? =
          (readCategories sampleState)[k]?) ∧
      (readCategories (removeProfileFromCategory sampleState "b" "p1").2)[i]? =
        some (c.setField "profiles"
          (.arr (profiles.take pi ++ profiles.drop (pi + 1))))) :=
  ⟨(repository_frame_effects sampleState "b" "p1" profP3).1
      (addProfileToCategory sampleState "b" profP3).2 rfl,
   (repository_frame_effects sampleState "b" "p1" profP3).2
      (removeProfileFromCategory sampleState "b" "p1").2 rfl⟩

/-- C10: duplicate category ids are never ruled out, and on a document
holding several categories with the same id, `findCategoryById` and
`getCurrentCategory` both return the first matching category in document
order, `addProfileToCategory` pushes onto exactly that first matching
category, and a successful `removeProfileFromCategory` splices exactly
that first matching category.  The statement assumes nothing about the
rest of the document, so it covers documents with any number of
duplicates after position `i`. -/
theorem first_match_semantics (s : SlotState) (categoryId profileId : String)
    (profile : Json) (i : Nat) (c : Json)
    (hid : jsTrim categoryId ≠ "")
    (hget : (readCategories s)[i]? = some c)
    (hmatch : idMatches categoryId c = true)
    (hfirst : ∀ j, j < i → ∀ y, (readCategories s)[j]? = some y →
      idMatches categoryId y = false) :
    findCategoryById s categoryId = some c ∧
    getCurrentCategory s (some categoryId) = some c ∧
    addProfileToCategory s categoryId profile =
      (true, writeCategories ((readCategories s).set i (pushProfile c profile))) ∧
    (∀ s2, removeProfileFromCategory s categoryId profileId = (true, s2) →
      ∃ profiles pi, c.getField "profiles" = some (.arr profiles) ∧
        findIndexOpt (idMatches profileId) profiles = some pi ∧
        s2 = writeCategories ((readCategories s).set i
          (c.setField "profiles" (.arr (profiles.eraseIdx pi))))) := by
  have hfind : findIndexOpt (idMatches categoryId) (readCategories s) = some i :=
    findIndexOpt_first _ _ i c hget hmatch hfirst
  have hfindq : (readCategories s).find? (idMatches categoryId) = some c :=
    find?_of_first _ _ i c hget hmatch hfirst
  have hcid : ¬(categoryId = "") := by
    intro hc
    rw [hc] at hid
    exact hid rfl
  refine ⟨?_, ?_, ?_, ?_⟩
  · simp [findCategoryById, hid, hfindq]
  · simp [getCurrentCategory, hcid, hfindq]
  · simp [addProfileToCategory, hfind, hget]
  · intro s2 hs2
    have hshaped : isCategoryShaped c = true :=
      mem_readCategories_shaped s c (List.getElem?_mem hget)
    obtain ⟨profiles, hps⟩ := shaped_profiles_arr c hshaped
    cases hpfind : findIndexOpt (idMatches profileId) profiles with
    | none => simp [removeProfileFromCategory, hfind, hget, hps, hpfind] at hs2
    | some pi =>
      have hresult : removeProfileFromCategory s categoryId profileId =
          (true, writeCategories ((readCategories s).set i
            (c.setField "profiles" (.arr (profiles.eraseIdx pi))))) := by
        simp [removeProfileFromCategory, hfind, hget, hps, hpfind]
      rw [hresult] at hs2
      simp only [Prod.mk.injEq, true_and] at hs2
      exact ⟨profiles, pi, hps, hpfind, hs2.symm⟩

/-- Witness for C10 on the duplicate-id document: both lookups return the
first of the two categories sharing the id `dup`, and the add mutates
position 0. -/
theorem first_match_semantics_witness :
    findCategoryById dupState "dup" = some catDup1 ∧
    getCurrentCategory dupState (some "dup") = some catDup1 ∧
    addProfileToCategory dupState "dup" profP3 =
      (true, writeCategories ((readCategories dupState).set 0
        (pushProfile catDup1 profP3))) :=
  have hmain := first_match_semantics dupState "dup" "p1" profP3 0 catDup1
    (by decide) rfl (by decide) (fun j hj => absurd hj (Nat.not_lt_zero j))
  ⟨hmain.1, hmain.2.1, hmain.2.2.1⟩

end Intentgram
